import Mathlib

/-!
Shallow embedding of the table-normalization core of `html_table_converter.py`
(class `HTMLTableConverter`), together with theorems settling the frozen claims
about its specification.

The embedding follows the source line by line:
  - the span-grid builder inside `_process_table` (lines 333-388),
  - header merging `_merge_header_rows` (lines 442-469),
  - header deduplication `_make_unique` (lines 471-481),
  - record assembly (lines 428-436 and the identical loop at lines 111-119),
  - the PDF header heuristic inside `_process_pdf_table` (lines 88-105),
  - the character-grid reconstruction `_group_characters_into_rows`,
    `_group_characters_into_cells`, `_extract_tables_by_character_grid`
    (lines 234-315).

Python `dict` values keyed by strings are modelled as insertion-ordered
association lists where assignment to an existing key updates it in place
(Python dicts preserve insertion order and key update keeps position).
Python `str(n)` for a non-negative int is `Nat.repr`.  PDF character
coordinates are modelled as integers: the source compares them only through
subtraction, absolute value and order, all of which are exact in the
embedding; the float threshold comparison `e < w * 0.5` on integer `e`, `w`
is exactly the integer comparison `2 * e < w`.
-/

namespace HtmlTable

/-- A cell declaration as the builder reads it from a td or th element:
its (already extracted) text value and the raw rowspan / colspan attribute
values, `none` when the attribute is absent.  Mirrors the reads
`int(cell.get('rowspan', 1))` / `int(cell.get('colspan', 1))` at lines
350-351. -/
structure CellDecl where
  value : String
  rowspan : Option Int
  colspan : Option Int
deriving DecidableEq

/-- Resolution of a span attribute: `int(cell.get(attr, 1))` — the attribute
value when present, else 1.  No clamping is performed by the source. -/
def spanOf (o : Option Int) : Int := o.getD 1

/-- State of the grid construction across rows: the ordered log of dictionary
writes `grid[(r, c)] = value` (line 372; `occupied_cells` at line 373 is the
set of written coordinates, and the dict content is the last write at each
coordinate), plus the running maxima `max_row` / `max_col` (lines 375-376).
Column indices are integers because a negative colspan can drive
`current_col_idx` below zero. -/
structure BuildState where
  writes : List ((Nat × Int) × String)
  maxRow : Nat
  maxCol : Int
deriving DecidableEq

/-- State while processing the cells of one row: the build state plus the
running `current_col_idx` of line 341. -/
structure RowState where
  writes : List ((Nat × Int) × String)
  maxRow : Nat
  maxCol : Int
  colIdx : Int
deriving DecidableEq

/-- The coordinates written so far; this is the membership test used by
`occupied_cells`. -/
def coordsOf (ws : List ((Nat × Int) × String)) : List (Nat × Int) :=
  ws.map Prod.fst

/-- The while loop of lines 346-347: advance the column index past occupied
coordinates.  The loop is bounded by fuel; `writes.length + 1` steps always
suffice because among `fuel` successive columns at least one is free when
fewer than `fuel` coordinates are occupied. -/
def skipOccupied : Nat → List ((Nat × Int) × String) → Nat → Int → Int
  | 0, _, _, c => c
  | fuel + 1, ws, r, c =>
    if (r, c) ∈ coordsOf ws then skipOccupied fuel ws r (c + 1) else c

/-- The (r, c) offset pairs produced by the two nested loops
`for r in range(rowspan): for c in range(colspan):` (lines 368-369), in
iteration order; empty when a span is non-positive, exactly like Python
`range`. -/
def spanOffsets (rs cs : Int) : List (Nat × Nat) :=
  (List.range rs.toNat).flatMap (fun r =>
    (List.range cs.toNat).map (fun c => (r, c)))

/-- One iteration of the fill loop body (lines 370-376): record the write and
update the maxima. -/
def writeCell (rowIdx : Nat) (start : Int) (v : String) (st : RowState)
    (rc : Nat × Nat) : RowState :=
  { writes := st.writes ++ [((rowIdx + rc.1, start + (rc.2 : Int)), v)]
    maxRow := max st.maxRow (rowIdx + rc.1)
    maxCol := max st.maxCol (start + (rc.2 : Int))
    colIdx := st.colIdx }

/-- Processing of one cell (lines 344-378): skip occupied columns, resolve the
spans, fill the span area, then advance the column index by the raw colspan. -/
def placeCell (rowIdx : Nat) (st : RowState) (cell : CellDecl) : RowState :=
  let rs := spanOf cell.rowspan
  let cs := spanOf cell.colspan
  let start := skipOccupied (st.writes.length + 1) st.writes rowIdx st.colIdx
  let st1 := (spanOffsets rs cs).foldl (writeCell rowIdx start cell.value)
    { st with colIdx := start }
  { st1 with colIdx := start + cs }

/-- Processing of one row declaration (lines 340-378): the column index is
reset to 0, then each declared cell is placed in order. -/
def processRow (rowIdx : Nat) (st : BuildState) (cells : List CellDecl) :
    BuildState :=
  let rs := cells.foldl (placeCell rowIdx)
    { writes := st.writes, maxRow := st.maxRow, maxCol := st.maxCol,
      colIdx := 0 }
  { writes := rs.writes, maxRow := rs.maxRow, maxCol := rs.maxCol }

/-- The outer loop over row declarations, with the running `current_row_idx`
incremented once per declaration (line 380).  Returns the final build state
and the final row index. -/
def buildRowsGo (st : BuildState) (rowIdx : Nat) :
    List (List CellDecl) → BuildState × Nat
  | [] => (st, rowIdx)
  | row :: rest => buildRowsGo (processRow rowIdx st row) (rowIdx + 1) rest

/-- The span-grid builder of `_process_table` (lines 333-380): start from the
empty grid, row index 0, maxima 0. -/
def buildRows (rows : List (List CellDecl)) : BuildState × Nat :=
  buildRowsGo { writes := [], maxRow := 0, maxCol := 0 } 0 rows

/-- Dictionary lookup `grid.get((r, c), "")` (line 387): the value of the last
write at the coordinate, or the empty string. -/
def gridGet (ws : List ((Nat × Int) × String)) (r : Nat) (c : Int) : String :=
  (((ws.reverse.find? (fun p => decide (p.1 = (r, c)))).map Prod.snd).getD "")

/-- Materialization of the dense matrix (lines 383-388): `(max_row + 1)` rows
of `(max_col + 1)` columns, unwritten coordinates filled with `""`. -/
def buildMatrix (rows : List (List CellDecl)) : List (List String) :=
  let st := (buildRows rows).1
  (List.range (st.maxRow + 1)).map (fun r =>
    (List.range (st.maxCol.toNat + 1)).map (fun c =>
      gridGet st.writes r (Int.ofNat c)))

/-- A cell of `rows` maps absent spans to `some 1` and keeps present spans;
defaulting absent spans to 1 explicitly. -/
def defaultSpans (rows : List (List CellDecl)) : List (List CellDecl) :=
  rows.map (fun row => row.map (fun cell =>
    { value := cell.value, rowspan := some (spanOf cell.rowspan),
      colspan := some (spanOf cell.colspan) }))

/-- All resolved spans of the declarations are at least 1 (the shape the
spec's data model promises for well-formed input). -/
def WellFormedSpans (rows : List (List CellDecl)) : Prop :=
  ∀ row ∈ rows, ∀ cell ∈ row,
    1 ≤ spanOf cell.rowspan ∧ 1 ≤ spanOf cell.colspan

instance : DecidablePred WellFormedSpans := fun rows =>
  inferInstanceAs (Decidable (∀ row ∈ rows, ∀ cell ∈ row, _ ∧ _))

/-- The rectangle of coordinates the dense matrix ranges over. -/
def rectOf (st : BuildState) : Finset (Nat × Int) :=
  Finset.range (st.maxRow + 1) ×ˢ Finset.Icc (0 : Int) st.maxCol

/-- Python `str.strip()`: drop whitespace from both ends.  (Stated over the
character list of the string so that it computes by structural recursion.) -/
def pyStrip (s : String) : String :=
  String.mk
    (((s.data.dropWhile Char.isWhitespace).reverse.dropWhile
      Char.isWhitespace).reverse)

/-- The inner per-column collection of `_merge_header_rows` (lines 457-463):
the non-empty trimmed values of column `colIdx`, one per header row that is
wide enough, in row order. -/
def mergeCollect (headerRows : List (List String)) (colIdx : Nat) :
    List String :=
  headerRows.filterMap (fun row =>
    match row.get? colIdx with
    | some v => if pyStrip v = "" then none else some (pyStrip v)
    | none => none)

/-- The column count `max(len(row) for row in header_rows)` of line 453. -/
def numCols (headerRows : List (List String)) : Nat :=
  (headerRows.map List.length).foldl max 0

/-- `_merge_header_rows` (lines 442-469).  A single header row is returned
unchanged (line 448) — note: not trimmed.  Otherwise each of the `numCols`
columns collects its non-empty trimmed values and joins them with a
`" - "` separator; `String.intercalate` of the empty list is `""`, matching
the `if col_values else ""` guard of line 466. -/
def mergeHeaderRows : List (List String) → List String
  | [row] => row
  | [] => []
  | r0 :: r1 :: rest =>
    (List.range (numCols (r0 :: r1 :: rest))).map (fun colIdx =>
      String.intercalate " - " (mergeCollect (r0 :: r1 :: rest) colIdx))

/-- Lookup in the `seen` dictionary of `_make_unique`; the dictionary is an
insertion-ordered association list with unique keys. -/
def seenLookup : List (String × Nat) → String → Option Nat
  | [], _ => none
  | p :: rest, h => if p.1 = h then some p.2 else seenLookup rest h

/-- Assignment `seen[h] = n`: update the entry in place when the key exists,
else append. -/
def seenSet : List (String × Nat) → String → Nat → List (String × Nat)
  | [], h, n => [(h, n)]
  | p :: rest, h, n =>
    if p.1 = h then (h, n) :: rest else p :: seenSet rest h n

/-- The loop of `_make_unique` (lines 474-480): a first occurrence records
count 0 and keeps the bare name; a repeat increments the count `k` and emits
`h ++ "_" ++ k` (the f-string of line 477, with `Nat.repr` as Python
`str(int)`). -/
def makeUniqueGo (seen : List (String × Nat)) : List String → List String
  | [] => []
  | h :: rest =>
    match seenLookup seen h with
    | some n => (h ++ "_" ++ Nat.repr (n + 1)) ::
        makeUniqueGo (seenSet seen h (n + 1)) rest
    | none => h :: makeUniqueGo (seenSet seen h 0) rest

/-- `_make_unique` (lines 471-481). -/
def makeUnique (headers : List String) : List String := makeUniqueGo [] headers

/-- Assignment `record[h] = v` on a Python dict modelled as an
insertion-ordered association list: update in place or append. -/
def dictInsert : List (String × Option String) → String → Option String →
    List (String × Option String)
  | [], k, v => [(k, v)]
  | p :: rest, k, v =>
    if p.1 = k then (k, v) :: rest else p :: dictInsert rest k v

/-- The record-building loop of lines 430-435 (and the identical loop at
lines 113-118 of `_process_pdf_table`): for each header at index `h_idx`,
`record[h] = row[h_idx] if h_idx < len(row) else None`; `none` is Python
`None`. -/
def buildRecord (headers : List String) (row : List String) :
    List (String × Option String) :=
  headers.enum.foldl (fun d ih => dictInsert d ih.2 (row.get? ih.1)) []

/-- A positioned character from pdfplumber's JSON: its text and its `x0` /
`top` coordinates. -/
structure PChar where
  text : String
  x0 : Int
  top : Int
deriving DecidableEq

/-- The sort key `(top, x0)` of line 243, as a total boolean order (Python's
sort is stable; on a total key the result is the lexicographically sorted
permutation). -/
def charLe (a b : PChar) : Bool :=
  decide (a.top < b.top ∨ (a.top = b.top ∧ a.x0 ≤ b.x0))

/-- Stable insertion of `x` into a sorted list: `x` goes in front of the
first element it compares less-or-equal to, so elements tying with `x` that
came earlier stay in front of it. -/
def insertSorted (le : PChar → PChar → Bool) (x : PChar) :
    List PChar → List PChar
  | [] => [x]
  | y :: ys => if le x y then x :: y :: ys else y :: insertSorted le x ys

/-- A stable sort.  Python's `sorted` is stable, and on a total boolean
preorder every stable sort produces the same output, so this models
`sorted(...)` exactly. -/
def sortBy (le : PChar → PChar → Bool) : List PChar → List PChar
  | [] => []
  | x :: xs => insertSorted le x (sortBy le xs)

/-- `sorted(chars, key=lambda c: (c['top'], c['x0']))`. -/
def sortChars (chars : List PChar) : List PChar := sortBy charLe chars

/-- The loop of `_group_characters_into_rows` (lines 273-284): `curTop` is the
`top` of the first character of the current row and is only updated when a
new row starts. -/
def groupRowsGo (thr : Int) (curTop : Int) (curRow : List PChar) :
    List PChar → List (List PChar)
  | [] => [curRow]
  | ch :: rest =>
    if (ch.top - curTop).natAbs ≤ thr.toNat then
      groupRowsGo thr curTop (curRow ++ [ch]) rest
    else
      curRow :: groupRowsGo thr ch.top [ch] rest

/-- `_group_characters_into_rows` (lines 262-286), threshold 5. -/
def groupCharactersIntoRows (chars : List PChar) : List (List PChar) :=
  match chars with
  | [] => []
  | c :: rest => groupRowsGo 5 c.top [c] rest

/-- The sort key `x0` of line 296. -/
def charLeX (a b : PChar) : Bool := decide (a.x0 ≤ b.x0)

/-- The loop of `_group_characters_into_cells` (lines 302-313). -/
def groupCellsGo (thr : Int) (curX : Int) (curCell : List PChar) :
    List PChar → List (List PChar)
  | [] => [curCell]
  | ch :: rest =>
    if (ch.x0 - curX).natAbs ≤ thr.toNat then
      groupCellsGo thr curX (curCell ++ [ch]) rest
    else
      curCell :: groupCellsGo thr ch.x0 [ch] rest

/-- `_group_characters_into_cells` (lines 288-315), threshold 10: sort the
row's characters by `x0`, then cluster. -/
def groupCharactersIntoCells (chars : List PChar) : List (List PChar) :=
  match sortBy charLeX chars with
  | [] => []
  | c :: rest => groupCellsGo 10 c.x0 [c] rest

/-- Cell text: `''.join(c['text'] for c in cell).strip()` (line 252). -/
def cellText (cell : List PChar) : String :=
  pyStrip (String.join (cell.map PChar.text))

/-- The matrix reconstructed from a character stream (lines 243-253): sort,
group into rows, group every row into cells, take the trimmed cell texts. -/
def tableOfChars (chars : List PChar) : List (List String) :=
  (groupCharactersIntoRows (sortChars chars)).map (fun rowChars =>
    (groupCharactersIntoCells rowChars).map cellText)

/-- The two legal output shapes of one table: field-keyed records (field
values are `Option String`, `none` being Python `None`) or a positional
matrix. -/
inductive TableResult where
  | records : List (List (String × Option String)) → TableResult
  | matrix : List (List String) → TableResult
deriving DecidableEq

/-- Python truthiness of the returned table data: an empty list is falsy. -/
def TableResult.isEmptyResult : TableResult → Bool
  | .records l => l.isEmpty
  | .matrix l => l.isEmpty

/-- The count `sum(1 for cell in row if not cell or cell == "")` of lines
94-95; on already-stripped string cells this counts the empty strings. -/
def emptyCount (row : List String) : Nat :=
  row.countP (fun c => decide (c = ""))

/-- The header-row-count heuristic of `_process_pdf_table` (lines 91-102),
evaluated on the cleaned table: start at 1 and upgrade to 2 exactly when the
table has more than 2 rows, row 1 has strictly fewer empty cells than row 0,
and row 1's empty-cell count is strictly below half its width (the float
comparison `e < w * 0.5` on integers is exactly `2 * e < w`). -/
def headerRowCount : List (List String) → Nat
  | r0 :: r1 :: rest =>
    if 0 < rest.length ∧ emptyCount r1 < emptyCount r0 ∧
        2 * emptyCount r1 < r1.length then 2 else 1
  | _ => 1

/-- `_process_pdf_table` (lines 73-123) on a table whose cells are strings
(the character-grid path never produces `None` cells, so the cleaning of
line 85 is `pyStrip` cell-wise): a table with at most one row is
returned as a matrix; otherwise the leading `headerRowCount` rows are merged
and deduplicated into headers and the remaining rows become records. -/
def processPdfTable (table : List (List String)) : TableResult :=
  match table with
  | [] => .matrix []
  | t =>
    let cleaned := t.map (fun row => row.map pyStrip)
    if 1 < cleaned.length then
      let hrc := headerRowCount cleaned
      let uniqueHeaders := makeUnique (mergeHeaderRows (cleaned.take hrc))
      .records ((cleaned.drop hrc).map (buildRecord uniqueHeaders))
    else
      .matrix cleaned

/-- `_extract_tables_by_character_grid` (lines 234-260): reconstruct the
matrix; only when it has more than 2 rows is it processed, and the processed
result is returned as a singleton unless it is empty (Python truthiness of
`table_data`). -/
def extractTablesByCharacterGrid (chars : List PChar) : List TableResult :=
  match chars with
  | [] => []
  | cs =>
    let table := tableOfChars cs
    if 2 < table.length then
      let tableData := processPdfTable table
      if tableData.isEmptyResult then [] else [tableData]
    else []

end HtmlTable

namespace HtmlTable

/-! ### Helper lemmas: row grouping -/

theorem groupRowsGo_flatten (thr : Int) :
    ∀ (l : List PChar) (t : Int) (cur : List PChar),
      (groupRowsGo thr t cur l).flatten = cur ++ l := by
  intro l
  induction l with
  | nil => intro t cur; simp [groupRowsGo]
  | cons ch rest ih =>
    intro t cur
    simp only [groupRowsGo]
    by_cases hc : (ch.top - t).natAbs ≤ thr.toNat
    · simp only [hc, if_true, ih]
      simp
    · simp only [hc, if_false, List.flatten_cons, ih]
      simp

theorem groupRowsGo_ne_nil (thr : Int) :
    ∀ (l : List PChar) (t : Int) (cur : List PChar), cur ≠ [] →
      ∀ row ∈ groupRowsGo thr t cur l, row ≠ [] := by
  intro l
  induction l with
  | nil =>
    intro t cur hcur row hrow
    simp [groupRowsGo] at hrow
    simpa [hrow] using hcur
  | cons ch rest ih =>
    intro t cur hcur row hrow
    simp only [groupRowsGo] at hrow
    by_cases hc : (ch.top - t).natAbs ≤ thr.toNat
    · rw [if_pos hc] at hrow
      exact ih t (cur ++ [ch]) (by simp) row hrow
    · rw [if_neg hc] at hrow
      rcases List.mem_cons.mp hrow with h | h
      · simpa [h] using hcur
      · exact ih ch.top [ch] (by simp) row h

/-! ### Helper lemmas: header deduplication -/

/-- The position-indexed specification of the deduplication loop: `base` is
the list of names already consumed. -/
def dedupFrom (base : List String) : List String → List String
  | [] => []
  | h :: rest =>
    (if base.count h = 0 then h else h ++ "_" ++ Nat.repr (base.count h)) ::
      dedupFrom (base ++ [h]) rest

theorem seenLookup_seenSet (h : String) (n : Nat) :
    ∀ (seen : List (String × Nat)) (s : String),
      seenLookup (seenSet seen h n) s =
        if s = h then some n else seenLookup seen s := by
  intro seen
  induction seen with
  | nil =>
    intro s
    by_cases hs : s = h
    · simp [seenSet, seenLookup, hs]
    · have hsh : ¬ h = s := fun hh => hs hh.symm
      simp [seenSet, seenLookup, hs, hsh]
  | cons p rest ih =>
    intro s
    simp only [seenSet]
    by_cases hp : p.1 = h
    · by_cases hs : s = h
      · simp [seenLookup, hp, hs]
      · have hsh : ¬ h = s := fun hh => hs hh.symm
        have hps : ¬ p.1 = s := by rw [hp]; exact hsh
        simp [seenLookup, hs, hsh, hps, hp]
    · by_cases hps : p.1 = s
      · have hs : ¬ s = h := by
          intro hh
          apply hp
          rw [hps, hh]
        simp [seenLookup, hp, hps, hs]
      · simp [seenLookup, hp, hps, ih s]

theorem makeUniqueGo_eq_dedupFrom :
    ∀ (l : List String) (base : List String) (seen : List (String × Nat)),
      (∀ s, seenLookup seen s =
        if base.count s = 0 then none else some (base.count s - 1)) →
      makeUniqueGo seen l = dedupFrom base l := by
  intro l
  induction l with
  | nil => intro base seen _; simp [makeUniqueGo, dedupFrom]
  | cons h rest ih =>
    intro base seen hseen
    have hlook := hseen h
    by_cases hz : base.count h = 0
    · rw [if_pos hz] at hlook
      simp only [makeUniqueGo, hlook, dedupFrom, if_pos hz]
      refine congrArg _ (ih (base ++ [h]) (seenSet seen h 0) ?_)
      intro s
      rw [seenLookup_seenSet]
      by_cases hs : s = h
      · subst hs
        simp [List.count_append, List.count_singleton', hz]
      · have hsh : ¬ h = s := fun hh => hs hh.symm
        have hcnt : (base ++ [h]).count s = base.count s := by
          simp [List.count_append, List.count_singleton', hsh]
        simp [hs, hcnt, hseen s]
    · rw [if_neg hz] at hlook
      simp only [makeUniqueGo, hlook, dedupFrom, if_neg hz]
      have hrepr : base.count h - 1 + 1 = base.count h :=
        Nat.succ_pred_eq_of_pos (Nat.pos_of_ne_zero hz)
      rw [hrepr]
      refine congrArg _ (ih (base ++ [h]) (seenSet seen h (base.count h)) ?_)
      intro s
      rw [seenLookup_seenSet]
      by_cases hs : s = h
      · subst hs
        have hcnt : (base ++ [s]).count s = base.count s + 1 := by
          simp [List.count_append]
        simp [hcnt]
      · have hsh : ¬ h = s := fun hh => hs hh.symm
        have hcnt : (base ++ [h]).count s = base.count s := by
          simp [List.count_append, List.count_singleton', hsh]
        simp [hs, hcnt, hseen s]

theorem makeUnique_eq_dedupFrom (headers : List String) :
    makeUnique headers = dedupFrom [] headers := by
  refine makeUniqueGo_eq_dedupFrom headers [] [] ?_
  intro s
  simp [seenLookup]

theorem dedupFrom_length :
    ∀ (l : List String) (base : List String),
      (dedupFrom base l).length = l.length := by
  intro l
  induction l with
  | nil => intro base; simp [dedupFrom]
  | cons h rest ih => intro base; simp [dedupFrom, ih]

theorem dedupFrom_getElem? :
    ∀ (l : List String) (base : List String) (i : Nat) (h : String),
      l[i]? = some h →
      (dedupFrom base l)[i]? =
        some (if (base ++ l.take i).count h = 0 then h
              else h ++ "_" ++ Nat.repr ((base ++ l.take i).count h)) := by
  intro l
  induction l with
  | nil => intro base i h hh; simp at hh
  | cons x rest ih =>
    intro base i h hh
    cases i with
    | zero =>
      simp only [List.getElem?_cons_zero, Option.some.injEq] at hh
      subst hh
      simp [dedupFrom]
    | succ i =>
      simp only [List.getElem?_cons_succ] at hh
      have := ih (base ++ [x]) i h hh
      simpa [dedupFrom, List.take_succ_cons, List.append_assoc] using this

/-! ### C4 — header deduplication -/

/-- C4 (counterexample): the claim that the result never contains duplicate
names fails when an input name collides with a generated name: on
`[Id, Id_1, Id]` the second `Id` is renamed to `Id_1`, which duplicates the
input name `Id_1`. -/
theorem C4_counterexample :
    makeUnique ["Id", "Id_1", "Id"] = ["Id", "Id_1", "Id_1"] ∧
      ¬ (makeUnique ["Id", "Id_1", "Id"]).Nodup := by
  constructor
  · rfl
  · decide

/-- C4 (amended): scanning left to right, the occurrence at index `i` of a
name keeps the bare name when the name has not occurred among the first `i`
headers, and otherwise becomes the name suffixed with an underscore and the
1-based count of its earlier occurrences (second occurrence `name_1`, third
`name_2`, ...); the output has one entry per input entry.  Uniqueness of the
output does not hold in general (see the counterexample). -/
theorem C4_dedup_rule (headers : List String) :
    (makeUnique headers).length = headers.length ∧
      ∀ i h, headers[i]? = some h →
        (makeUnique headers)[i]? =
          some (if (headers.take i).count h = 0 then h
                else h ++ "_" ++ Nat.repr ((headers.take i).count h)) := by
  rw [makeUnique_eq_dedupFrom]
  refine ⟨dedupFrom_length headers [], ?_⟩
  intro i h hh
  simpa using dedupFrom_getElem? headers [] i h hh

/-- C4 (witness): on the scenario `[Id, Name, Id]` the theorem yields
`[Id, Name, Id_1]` at index 2. -/
theorem C4_dedup_rule_witness :
    (makeUnique ["Id", "Name", "Id"])[2]? = some "Id_1" := by
  have h := (C4_dedup_rule ["Id", "Name", "Id"]).2 2 "Id" rfl
  simpa using h

end HtmlTable

namespace HtmlTable

/-! ### C5 — header merging -/

/-- C5 (counterexample): a single-row header is returned by
`_merge_header_rows` completely unchanged, not trimmed: on the one-row
header `[" a "]` the output keeps the surrounding spaces. -/
theorem C5_counterexample :
    mergeHeaderRows [[" a "]] = [" a "] ∧ mergeHeaderRows [[" a "]] ≠ ["a"] := by
  constructor
  · rfl
  · decide

/-- C5 (amended): for two or more header rows the merged name of every
column is the list of non-empty trimmed values of that column taken from
each header row in row order, joined with the separator, and a column that
collects no value merges to the empty string; a single-row header passes
through unmerged and untrimmed. -/
theorem C5_header_merging :
    (∀ row : List String, mergeHeaderRows [row] = row) ∧
      ∀ (r0 r1 : List String) (rest : List (List String)),
        (mergeHeaderRows (r0 :: r1 :: rest)).length =
            numCols (r0 :: r1 :: rest) ∧
          (∀ col, col < numCols (r0 :: r1 :: rest) →
            (mergeHeaderRows (r0 :: r1 :: rest))[col]? =
              some (String.intercalate " - "
                (mergeCollect (r0 :: r1 :: rest) col))) ∧
          ∀ col, col < numCols (r0 :: r1 :: rest) →
            mergeCollect (r0 :: r1 :: rest) col = [] →
              (mergeHeaderRows (r0 :: r1 :: rest))[col]? = some "" := by
  constructor
  · intro row
    rfl
  · intro r0 r1 rest
    refine ⟨by simp [mergeHeaderRows], ?_, ?_⟩
    · intro col hcol
      simp [mergeHeaderRows, List.getElem?_map, List.getElem?_range hcol]
    · intro col hcol hnil
      simp [mergeHeaderRows, List.getElem?_map, List.getElem?_range hcol, hnil,
        String.intercalate]

/-- C5 (witness): the two-row header of Scenario E merges column 0 to
`Category` and column 1 to `2020`, and a column with values in both rows
merges with the separator. -/
theorem C5_header_merging_witness :
    (mergeHeaderRows [["Category", ""], ["", "2020"]])[0]? = some "Category" ∧
      (mergeHeaderRows [["Category", ""], ["", "2020"]])[1]? = some "2020" ∧
      (mergeHeaderRows [["A"], ["B"]])[0]? = some "A - B" := by
  have h0 := (C5_header_merging.2 ["Category", ""] ["", "2020"] []).2.1 0
    (by decide)
  have h1 := (C5_header_merging.2 ["Category", ""] ["", "2020"] []).2.1 1
    (by decide)
  have h2 := (C5_header_merging.2 ["A"] ["B"] []).2.1 0 (by decide)
  refine ⟨?_, ?_, ?_⟩
  · rw [h0]
    decide
  · rw [h1]
    decide
  · rw [h2]
    decide

/-! ### Helper lemmas: record assembly -/

theorem dictInsert_of_not_mem :
    ∀ (d : List (String × Option String)) (k : String) (v : Option String),
      k ∉ d.map Prod.fst → dictInsert d k v = d ++ [(k, v)] := by
  intro d
  induction d with
  | nil => intro k v _; rfl
  | cons p rest ih =>
    intro k v hk
    simp only [List.map_cons, List.mem_cons, not_or] at hk
    have hne : ¬ p.1 = k := fun hh => hk.1 hh.symm
    simp [dictInsert, hne, ih k v hk.2]

theorem buildRecord_go (row : List String) :
    ∀ (hs : List String) (n : Nat) (d : List (String × Option String)),
      hs.Nodup → (∀ h ∈ hs, h ∉ d.map Prod.fst) →
      List.foldl (fun d ih => dictInsert d ih.2 (row.get? ih.1)) d
          (List.enumFrom n hs) =
        d ++ (List.enumFrom n hs).map (fun ih => (ih.2, row.get? ih.1)) := by
  intro hs
  induction hs with
  | nil => intro n d _ _; simp
  | cons h t ih =>
    intro n d hnd hkeys
    have hstep : dictInsert d h (row.get? n) = d ++ [(h, row.get? n)] :=
      dictInsert_of_not_mem d h (row.get? n) (hkeys h (List.mem_cons_self h t))
    have hrest : ∀ h' ∈ t, h' ∉ (d ++ [(h, row.get? n)]).map Prod.fst := by
      intro h' hh'
      simp only [List.map_append, List.mem_append, List.map_cons,
        List.map_nil, List.mem_singleton, not_or]
      refine ⟨hkeys h' (List.mem_cons_of_mem h hh'), ?_⟩
      intro hcontra
      rw [hcontra] at hh'
      exact (List.nodup_cons.mp hnd).1 hh'
    have := ih (n + 1) (d ++ [(h, row.get? n)]) (List.nodup_cons.mp hnd).2 hrest
    simp only [List.enumFrom, List.foldl_cons, hstep, this, List.map_cons]
    simp

/-! ### C6 — record assembly uniformity -/

/-- C6 (confirmed): with a duplicate-free header, each data row builds a
record whose entries are exactly the header names in column order, each
mapped to the row value at that column when the row is wide enough and to
`none` (Python `None`) otherwise; row values beyond the header's length do
not appear. -/
theorem C6_record_uniformity (headers row : List String)
    (hnd : headers.Nodup) (_hne : headers ≠ []) :
    buildRecord headers row =
        headers.enum.map (fun ih => (ih.2, row.get? ih.1)) ∧
      (buildRecord headers row).map Prod.fst = headers := by
  have hmain : buildRecord headers row =
      headers.enum.map (fun ih => (ih.2, row.get? ih.1)) := by
    have := buildRecord_go row headers 0 [] hnd (by simp)
    simpa [buildRecord, List.enum_eq_enumFrom] using this
  refine ⟨hmain, ?_⟩
  rw [hmain]
  rw [List.map_map]
  have : (Prod.fst ∘ fun ih : Nat × String => (ih.2, row.get? ih.1)) =
      Prod.snd := by
    funext ih
    rfl
  rw [this, List.enum_eq_enumFrom, List.enumFrom_map_snd]

/-- C6 (witness): headers `[Id, Name]` against the short row `["1"]` produce
the record with `Id` mapped to `"1"` and `Name` mapped to `none`; against
the long row `["1", "2", "3"]` the single header `[A]` drops the extras. -/
theorem C6_record_uniformity_witness :
    buildRecord ["Id", "Name"] ["1"] = [("Id", some "1"), ("Name", none)] ∧
      buildRecord ["A"] ["1", "2", "3"] = [("A", some "1")] := by
  have h1 := C6_record_uniformity ["Id", "Name"] ["1"] (by decide) (by decide)
  have h2 := C6_record_uniformity ["A"] ["1", "2", "3"] (by decide) (by decide)
  constructor
  · rw [h1.1]; rfl
  · rw [h2.1]; rfl

/-! ### C7 — PDF header heuristic -/

/-- C7 (confirmed): on a matrix with at least two rows, the heuristic of
`_process_pdf_table` chooses a two-row header exactly when the matrix has at
least 3 rows, row 1 has strictly fewer empty cells than row 0, and row 1's
empty-cell count is strictly less than half of row 1's width; in every
other case it chooses the single-row header. -/
theorem C7_pdf_header_heuristic (r0 r1 : List String)
    (rest : List (List String)) :
    (headerRowCount (r0 :: r1 :: rest) = 2 ↔
        (3 ≤ (r0 :: r1 :: rest).length ∧ emptyCount r1 < emptyCount r0 ∧
          2 * emptyCount r1 < r1.length)) ∧
      (¬ (3 ≤ (r0 :: r1 :: rest).length ∧ emptyCount r1 < emptyCount r0 ∧
          2 * emptyCount r1 < r1.length) →
        headerRowCount (r0 :: r1 :: rest) = 1) := by
  have hlen : (3 ≤ (r0 :: r1 :: rest).length) ↔ 0 < rest.length := by
    simp only [List.length_cons]
    omega
  by_cases hcond : 0 < rest.length ∧ emptyCount r1 < emptyCount r0 ∧
      2 * emptyCount r1 < r1.length
  · have h2 : headerRowCount (r0 :: r1 :: rest) = 2 := by
      simp [headerRowCount, hcond]
    constructor
    · rw [h2]
      exact ⟨fun _ => ⟨hlen.mpr hcond.1, hcond.2⟩, fun _ => rfl⟩
    · intro hn
      exact absurd ⟨hlen.mpr hcond.1, hcond.2⟩ hn
  · have h1 : headerRowCount (r0 :: r1 :: rest) = 1 := by
      simp only [headerRowCount, if_neg hcond]
    constructor
    · rw [h1]
      constructor
      · intro hh
        exact absurd hh (by decide)
      · intro hh
        exact absurd ⟨hlen.mp hh.1, hh.2.1, hh.2.2⟩ hcond
    · intro _
      exact h1

/-- C7 (witness): on the matrix `[[A, ""], [x, y], [1, 2]]` row 1 has no
empty cell while row 0 has one, and 0 is below half of 2, so rows 0-1 form
the header. -/
theorem C7_pdf_header_heuristic_witness :
    headerRowCount [["A", ""], ["x", "y"], ["1", "2"]] = 2 :=
  (C7_pdf_header_heuristic ["A", ""] ["x", "y"] [["1", "2"]]).1.mpr (by decide)

/-! ### C10 — row grouping is a partition -/

/-- C10 (confirmed): on any non-empty character sequence the row-grouping
step returns rows that are all non-empty and whose in-order concatenation is
exactly the input sequence. -/
theorem C10_row_partition (chars : List PChar) (hne : chars ≠ []) :
    (groupCharactersIntoRows chars).flatten = chars ∧
      ∀ row ∈ groupCharactersIntoRows chars, row ≠ [] := by
  match chars with
  | [] => exact absurd rfl hne
  | c :: rest =>
    constructor
    · simpa [groupCharactersIntoRows] using groupRowsGo_flatten 5 rest c.top [c]
    · intro row hrow
      refine groupRowsGo_ne_nil 5 rest c.top [c] (by simp) row ?_
      simpa [groupCharactersIntoRows] using hrow

/-- C10 (witness): a concrete two-character stream splits into two rows whose
concatenation is the input. -/
theorem C10_row_partition_witness :
    (groupCharactersIntoRows
        [⟨"a", 0, 0⟩, ⟨"b", 0, 20⟩]).flatten = [⟨"a", 0, 0⟩, ⟨"b", 0, 20⟩] :=
  (C10_row_partition [⟨"a", 0, 0⟩, ⟨"b", 0, 20⟩] (by decide)).1

end HtmlTable

namespace HtmlTable

/-! ### Helper lemmas: span-grid builder -/

theorem buildRowsGo_snd :
    ∀ (rows : List (List CellDecl)) (st : BuildState) (i : Nat),
      (buildRowsGo st i rows).2 = i + rows.length := by
  intro rows
  induction rows with
  | nil => intro st i; simp [buildRowsGo]
  | cons row rest ih =>
    intro st i
    simp only [buildRowsGo, ih, List.length_cons]
    omega

theorem le_skipOccupied :
    ∀ (fuel : Nat) (ws : List ((Nat × Int) × String)) (r : Nat) (c : Int),
      c ≤ skipOccupied fuel ws r c := by
  intro fuel
  induction fuel with
  | zero => intro ws r c; simp [skipOccupied]
  | succ n ih =>
    intro ws r c
    simp only [skipOccupied]
    by_cases hc : (r, c) ∈ coordsOf ws
    · rw [if_pos hc]
      have := ih ws r (c + 1)
      omega
    · rw [if_neg hc]

/-- Boundedness invariant for the per-row state: every recorded write sits
inside the rectangle of the running maxima and has a non-negative column,
the running maximum column is non-negative, and so is the column cursor. -/
def RowBounded (st : RowState) : Prop :=
  (∀ p ∈ st.writes, p.1.1 ≤ st.maxRow ∧ 0 ≤ p.1.2 ∧ p.1.2 ≤ st.maxCol) ∧
    0 ≤ st.maxCol ∧ 0 ≤ st.colIdx

/-- Boundedness invariant for the cross-row state. -/
def Bounded (st : BuildState) : Prop :=
  (∀ p ∈ st.writes, p.1.1 ≤ st.maxRow ∧ 0 ≤ p.1.2 ∧ p.1.2 ≤ st.maxCol) ∧
    0 ≤ st.maxCol

theorem writeCell_rowBounded (rowIdx : Nat) (start : Int) (v : String)
    (st : RowState) (rc : Nat × Nat) (hstart : 0 ≤ start)
    (hb : RowBounded st) : RowBounded (writeCell rowIdx start v st rc) := by
  obtain ⟨hw, hmc, hci⟩ := hb
  refine ⟨?_, ?_, hci⟩
  · intro p hp
    simp only [writeCell, List.mem_append, List.mem_singleton] at hp
    rcases hp with hp | hp
    · have := hw p hp
      refine ⟨le_trans this.1 (le_max_left _ _), this.2.1,
        le_trans this.2.2 (le_max_left _ _)⟩
    · subst hp
      refine ⟨le_max_right _ _, ?_, le_max_right _ _⟩
      have h2 : (0 : Int) ≤ (rc.2 : Int) := Int.ofNat_nonneg rc.2
      show 0 ≤ start + (rc.2 : Int)
      omega
  · exact le_trans hmc (le_max_left _ _)

theorem foldl_writeCell_rowBounded (rowIdx : Nat) (start : Int) (v : String)
    (hstart : 0 ≤ start) :
    ∀ (offsets : List (Nat × Nat)) (st : RowState), RowBounded st →
      RowBounded (offsets.foldl (writeCell rowIdx start v) st) := by
  intro offsets
  induction offsets with
  | nil => intro st hb; exact hb
  | cons rc rest ih =>
    intro st hb
    exact ih _ (writeCell_rowBounded rowIdx start v st rc hstart hb)

theorem foldl_writeCell_colIdx (rowIdx : Nat) (start : Int) (v : String) :
    ∀ (offsets : List (Nat × Nat)) (st : RowState),
      (offsets.foldl (writeCell rowIdx start v) st).colIdx = st.colIdx := by
  intro offsets
  induction offsets with
  | nil => intro st; rfl
  | cons rc rest ih =>
    intro st
    rw [List.foldl_cons, ih]
    rfl

theorem placeCell_rowBounded (rowIdx : Nat) (st : RowState) (cell : CellDecl)
    (hcs : 1 ≤ spanOf cell.colspan) (hb : RowBounded st) :
    RowBounded (placeCell rowIdx st cell) := by
  have hstart : 0 ≤ skipOccupied (st.writes.length + 1) st.writes rowIdx
      st.colIdx :=
    le_trans hb.2.2 (le_skipOccupied _ _ _ _)
  have hb1 : RowBounded { st with
      colIdx := skipOccupied (st.writes.length + 1) st.writes rowIdx
        st.colIdx } :=
    ⟨hb.1, hb.2.1, hstart⟩
  have hb2 := foldl_writeCell_rowBounded rowIdx _ cell.value hstart
    (spanOffsets (spanOf cell.rowspan) (spanOf cell.colspan)) _ hb1
  refine ⟨hb2.1, hb2.2.1, ?_⟩
  simp only [placeCell]
  omega

theorem foldl_placeCell_rowBounded (rowIdx : Nat) :
    ∀ (cells : List CellDecl) (st : RowState),
      (∀ cell ∈ cells, 1 ≤ spanOf cell.colspan) → RowBounded st →
      RowBounded (cells.foldl (placeCell rowIdx) st) := by
  intro cells
  induction cells with
  | nil => intro st _ hb; exact hb
  | cons cell rest ih =>
    intro st hwf hb
    refine ih _ (fun c hc => hwf c (List.mem_cons_of_mem cell hc)) ?_
    exact placeCell_rowBounded rowIdx st cell
      (hwf cell (List.mem_cons_self cell rest)) hb

theorem processRow_bounded (rowIdx : Nat) (st : BuildState)
    (cells : List CellDecl) (hwf : ∀ cell ∈ cells, 1 ≤ spanOf cell.colspan)
    (hb : Bounded st) : Bounded (processRow rowIdx st cells) := by
  have h0 : RowBounded ⟨st.writes, st.maxRow, st.maxCol, 0⟩ :=
    ⟨hb.1, hb.2, le_refl 0⟩
  have hfold := foldl_placeCell_rowBounded rowIdx cells
    ⟨st.writes, st.maxRow, st.maxCol, 0⟩ hwf h0
  exact ⟨hfold.1, hfold.2.1⟩

theorem buildRowsGo_bounded :
    ∀ (rows : List (List CellDecl)) (st : BuildState) (i : Nat),
      (∀ row ∈ rows, ∀ cell ∈ row, 1 ≤ spanOf cell.colspan) → Bounded st →
      Bounded (buildRowsGo st i rows).1 := by
  intro rows
  induction rows with
  | nil => intro st i _ hb; exact hb
  | cons row rest ih =>
    intro st i hwf hb
    refine ih _ (i + 1) (fun r hr => hwf r (List.mem_cons_of_mem row hr)) ?_
    exact processRow_bounded i st row (hwf row (List.mem_cons_self row rest)) hb

theorem buildRows_bounded (rows : List (List CellDecl))
    (hwf : WellFormedSpans rows) : Bounded (buildRows rows).1 := by
  refine buildRowsGo_bounded rows _ 0 ?_ ⟨by simp, le_refl 0⟩
  intro row hr cell hc
  exact (hwf row hr cell hc).2

end HtmlTable

namespace HtmlTable

/-! ### C1 — grid occupancy and tiling -/

/-- C1 (counterexample): two distinct cell declarations can assign the same
grid coordinate.  In the table whose first row declares `A` and `B` with
`rowspan=2`, and whose second row declares `C` with `colspan=2`, the
occupancy check only guards `C`'s starting column `(1, 0)`, so `C`'s span
area overwrites `(1, 1)` already written by `B`: the write log contains both
a `B`-write and a `C`-write at `(1, 1)` and its coordinate list is not
duplicate-free. -/
theorem C1_counterexample :
    ((((1 : Nat), (1 : Int)), "B") ∈
        (buildRows [[⟨"A", some 1, some 1⟩, ⟨"B", some 2, some 1⟩],
          [⟨"C", some 1, some 2⟩]]).1.writes) ∧
      ((((1 : Nat), (1 : Int)), "C") ∈
        (buildRows [[⟨"A", some 1, some 1⟩, ⟨"B", some 2, some 1⟩],
          [⟨"C", some 1, some 2⟩]]).1.writes) ∧
      ¬ (coordsOf (buildRows [[⟨"A", some 1, some 1⟩, ⟨"B", some 2, some 1⟩],
          [⟨"C", some 1, some 2⟩]]).1.writes).Nodup := by
  refine ⟨by decide, by decide, by decide⟩

/-- C1 (amended): when all spans are at least 1, every written coordinate
lies inside the rectangle spanned by the final maxima; consequently, when
the declarations' written areas are pairwise disjoint and cover that
rectangle (they tile the grid), the occupied-cell set has exactly
`(max_row + 1) * (max_col + 1)` elements.  Without the disjointness caveat
the statement fails (see the counterexample). -/
theorem C1_occupancy_tiling (rows : List (List CellDecl))
    (hwf : WellFormedSpans rows) :
    (coordsOf (buildRows rows).1.writes).toFinset ⊆
        rectOf (buildRows rows).1 ∧
      ((coordsOf (buildRows rows).1.writes).Nodup →
        rectOf (buildRows rows).1 ⊆
          (coordsOf (buildRows rows).1.writes).toFinset →
        (coordsOf (buildRows rows).1.writes).toFinset.card =
          ((buildRows rows).1.maxRow + 1) *
            ((buildRows rows).1.maxCol.toNat + 1)) := by
  have hb := buildRows_bounded rows hwf
  have hsub : (coordsOf (buildRows rows).1.writes).toFinset ⊆
      rectOf (buildRows rows).1 := by
    intro p hp
    rw [List.mem_toFinset] at hp
    obtain ⟨q, hq, hq2⟩ := List.mem_map.mp hp
    have hbnd := hb.1 q hq
    rw [rectOf, Finset.mem_product]
    subst hq2
    exact ⟨Finset.mem_range.mpr (Nat.lt_succ_of_le hbnd.1),
      Finset.mem_Icc.mpr ⟨hbnd.2.1, hbnd.2.2⟩⟩
  refine ⟨hsub, ?_⟩
  intro _ hsup
  have heq := Finset.Subset.antisymm hsub hsup
  rw [heq, rectOf, Finset.card_product, Finset.card_range, Int.card_Icc]
  have hmc : (0 : Int) ≤ (buildRows rows).1.maxCol := hb.2
  have h3 : ((buildRows rows).1.maxCol + 1 - 0).toNat =
      (buildRows rows).1.maxCol.toNat + 1 := by omega
  rw [h3]

/-- C1 (witness): a fully tiled 2 by 2 grid — rows `[A, B]` and `[C]` with
`colspan=2` — has an occupied set of exactly 4 cells. -/
theorem C1_occupancy_tiling_witness :
    (coordsOf (buildRows [[⟨"A", some 1, some 1⟩, ⟨"B", some 1, some 1⟩],
        [⟨"C", some 1, some 2⟩]]).1.writes).toFinset.card =
      ((buildRows [[⟨"A", some 1, some 1⟩, ⟨"B", some 1, some 1⟩],
          [⟨"C", some 1, some 2⟩]]).1.maxRow + 1) *
        ((buildRows [[⟨"A", some 1, some 1⟩, ⟨"B", some 1, some 1⟩],
          [⟨"C", some 1, some 2⟩]]).1.maxCol.toNat + 1) :=
  (C1_occupancy_tiling
    [[⟨"A", some 1, some 1⟩, ⟨"B", some 1, some 1⟩], [⟨"C", some 1, some 2⟩]]
    (by decide)).2 (by decide) (by decide)

/-! ### C2 — totality of the core -/

/-- C2 (counterexample): malformed span values are not clamped to 1.  A lone
cell declaring `rowspan=0` fills no grid position at all — its value `A`
vanishes and the materialized matrix holds only the empty-string fill —
whereas with the clamped span 1 the value would appear. -/
theorem C2_counterexample :
    buildMatrix [[⟨"A", some 0, some 1⟩]] = [[""]] ∧
      buildMatrix [[⟨"A", some 1, some 1⟩]] = [["A"]] := by
  refine ⟨by decide, by decide⟩

/-- C2 (amended): the core is total — on every row-declaration sequence the
builder produces a dense rectangular matrix of `(max_row + 1)` rows, each of
width `(max_col + 1)`, and on every character sequence the PDF extractor
returns either no table or exactly one table; but malformed (non-positive)
span values are not clamped to 1 (see the counterexample) — such cells
simply fill no position. -/
theorem C2_totality :
    (∀ rows : List (List CellDecl),
      (buildMatrix rows).length = (buildRows rows).1.maxRow + 1 ∧
        ∀ row ∈ buildMatrix rows,
          row.length = (buildRows rows).1.maxCol.toNat + 1) ∧
      ∀ chars : List PChar,
        extractTablesByCharacterGrid chars = [] ∨
          ∃ t, extractTablesByCharacterGrid chars = [t] := by
  constructor
  · intro rows
    constructor
    · simp [buildMatrix]
    · intro row hrow
      simp only [buildMatrix, List.mem_map] at hrow
      obtain ⟨r, _, hrow⟩ := hrow
      rw [← hrow]
      simp
  · intro chars
    match chars with
    | [] => exact Or.inl rfl
    | c :: rest =>
      by_cases h2 : 2 < (tableOfChars (c :: rest)).length
      · by_cases he :
          (processPdfTable (tableOfChars (c :: rest))).isEmptyResult = true
        · exact Or.inl (by simp [extractTablesByCharacterGrid, h2, he])
        · refine Or.inr ⟨processPdfTable (tableOfChars (c :: rest)), ?_⟩
          simp [extractTablesByCharacterGrid, h2, he]
      · exact Or.inl (by simp [extractTablesByCharacterGrid, h2])

/-- C2 (witness): the matrix built from a single defaulted cell is the one
row `[A]` of the maximal width. -/
theorem C2_totality_witness :
    (["A"] : List String).length =
      (buildRows [[⟨"A", none, none⟩]]).1.maxCol.toNat + 1 :=
  (C2_totality.1 [[⟨"A", none, none⟩]]).2 ["A"] (by decide)

/-! ### Helper lemmas: span normalization -/

theorem spanOffsets_eq_nil (rs cs : Int) (h : rs ≤ 0 ∨ cs ≤ 0) :
    spanOffsets rs cs = [] := by
  rcases h with h | h
  · simp [spanOffsets, Int.toNat_of_nonpos h]
  · simp [spanOffsets, Int.toNat_of_nonpos h]

theorem spanOffsets_length (rs cs : Int) :
    (spanOffsets rs cs).length = rs.toNat * cs.toNat := by
  rw [spanOffsets, List.length_flatMap]
  have hfun : (List.length ∘ fun r : Nat =>
      List.map (fun c => (r, c)) (List.range cs.toNat)) =
        fun r : Nat => cs.toNat := by
    funext r
    simp
  rw [hfun, List.map_const', List.length_range, List.sum_replicate,
    smul_eq_mul]

theorem foldl_writeCell_length (rowIdx : Nat) (start : Int) (v : String) :
    ∀ (offsets : List (Nat × Nat)) (st : RowState),
      (offsets.foldl (writeCell rowIdx start v) st).writes.length =
        st.writes.length + offsets.length := by
  intro offsets
  induction offsets with
  | nil => intro st; simp
  | cons rc rest ih =>
    intro st
    rw [List.foldl_cons, ih]
    simp [writeCell]
    omega

theorem placeCell_defaulted (rowIdx : Nat) (st : RowState) (cell : CellDecl) :
    placeCell rowIdx st
        ⟨cell.value, some (spanOf cell.rowspan), some (spanOf cell.colspan)⟩ =
      placeCell rowIdx st cell := rfl

theorem foldl_placeCell_defaulted (rowIdx : Nat) :
    ∀ (cells : List CellDecl) (st : RowState),
      (cells.map (fun cell =>
          CellDecl.mk cell.value (some (spanOf cell.rowspan))
            (some (spanOf cell.colspan)))).foldl (placeCell rowIdx) st =
        cells.foldl (placeCell rowIdx) st := by
  intro cells
  induction cells with
  | nil => intro st; rfl
  | cons cell rest ih =>
    intro st
    rw [List.map_cons, List.foldl_cons, List.foldl_cons,
      placeCell_defaulted, ih]

/-! ### C3 — span normalization -/

/-- C3 (counterexample): a span value of 0 or below is not treated as 1.  A
lone cell with `colspan=0` produces no write at all (it occupies no grid
position), and after a cell with `colspan=-1` the column index has shrunk to
-1, so the next cell is written at column -1. -/
theorem C3_counterexample :
    (buildRows [[⟨"A", some 1, some 0⟩]]).1.writes = [] ∧
      ((((0 : Nat), (-1 : Int)), "B") ∈
        (buildRows [[⟨"A", some 1, some (-1)⟩,
          ⟨"B", some 1, some 1⟩]]).1.writes) := by
  refine ⟨by decide, by decide⟩

/-- C3 (amended): an absent `rowspan` or `colspan` attribute is treated as 1
(defaulting every absent span to 1 leaves the whole build unchanged), but a
span value of 0 or below is used as is: the cell then occupies no grid
position (its placement records no write), and in general a placed cell
records exactly `rowspan.toNat * colspan.toNat` writes and advances the
column index by the raw colspan, so a cell with positive spans always
occupies at least one position while non-positive spans occupy none and can
move the column index backwards. -/
theorem C3_span_normalization :
    (∀ rows : List (List CellDecl),
        buildRows (defaultSpans rows) = buildRows rows) ∧
      (∀ (rowIdx : Nat) (st : RowState) (cell : CellDecl),
        spanOf cell.rowspan ≤ 0 ∨ spanOf cell.colspan ≤ 0 →
          (placeCell rowIdx st cell).writes = st.writes) ∧
      ∀ (rowIdx : Nat) (st : RowState) (cell : CellDecl),
        (placeCell rowIdx st cell).writes.length =
          st.writes.length +
            (spanOf cell.rowspan).toNat * (spanOf cell.colspan).toNat := by
  refine ⟨?_, ?_, ?_⟩
  · intro rows
    suffices h : ∀ (st : BuildState) (i : Nat),
        buildRowsGo st i (defaultSpans rows) = buildRowsGo st i rows by
      exact h _ 0
    induction rows with
    | nil => intro st i; rfl
    | cons row rest ih =>
      intro st i
      simp only [defaultSpans, List.map_cons] at ih ⊢
      rw [buildRowsGo, buildRowsGo]
      rw [show processRow i st (row.map (fun cell =>
          CellDecl.mk cell.value (some (spanOf cell.rowspan))
            (some (spanOf cell.colspan)))) = processRow i st row from ?_]
      · exact ih _ (i + 1)
      · simp only [processRow, foldl_placeCell_defaulted]
  · intro rowIdx st cell h
    simp [placeCell, spanOffsets_eq_nil _ _ h]
  · intro rowIdx st cell
    simp [placeCell, foldl_writeCell_length, spanOffsets_length]

/-- C3 (witness): placing a cell with `colspan=0` from the empty state
records no write. -/
theorem C3_span_normalization_witness :
    (placeCell 0 ⟨[], 0, 0, 0⟩ ⟨"A", some 1, some 0⟩).writes = [] :=
  C3_span_normalization.2.1 0 ⟨[], 0, 0, 0⟩ ⟨"A", some 1, some 0⟩
    (Or.inr (by decide))

end HtmlTable

namespace HtmlTable

/-! ### C8 — empty-row occupancy -/

theorem gridGet_of_no_write (ws : List ((Nat × Int) × String)) (r : Nat)
    (h : ∀ p ∈ ws, p.1.1 ≠ r) (c : Int) : gridGet ws r c = "" := by
  unfold gridGet
  have hf : ws.reverse.find? (fun p => decide (p.1 = (r, c))) = none := by
    rw [List.find?_eq_none]
    intro p hp
    simp only [decide_eq_true_eq]
    intro heq
    exact h p (List.mem_reverse.mp hp) (by rw [heq])
  rw [hf]
  rfl

/-- C8 (counterexample): a trailing empty row declaration does not occupy a
row of the dense grid.  On the two declarations `[[A], []]` the running row
index does reach 2, but `max_row` stays 0 and the materialized matrix has a
single row — the empty second row is absent from the grid. -/
theorem C8_counterexample :
    buildMatrix [[⟨"A", none, none⟩], []] = [["A"]] ∧
      (buildRows [[⟨"A", none, none⟩], []]).2 = 2 ∧
      (buildMatrix [[⟨"A", none, none⟩], []]).length = 1 := by
  refine ⟨by decide, by decide, by decide⟩

/-- C8 (amended): a row declaration with zero declared cells still
increments the running row index (after all declarations the index equals
the number of declarations), while processing it leaves the build state —
the write log and the maxima — completely unchanged; the dense grid has
`max_row + 1` rows where `max_row` is the largest row index actually
written, and a row index no write touches materializes as a row of empty
strings when it is at most `max_row` — so an empty declaration occupies a
grid row exactly when a later declaration or a spanning cell writes at or
below it, while trailing empty rows are not materialized (see the
counterexample). -/
theorem C8_empty_row (rows : List (List CellDecl)) :
    (buildRows rows).2 = rows.length ∧
      (∀ (i : Nat) (st : BuildState), processRow i st [] = st) ∧
      (buildMatrix rows).length = (buildRows rows).1.maxRow + 1 ∧
      ∀ r, r ≤ (buildRows rows).1.maxRow →
        (∀ p ∈ (buildRows rows).1.writes, p.1.1 ≠ r) →
        (buildMatrix rows)[r]? =
          some (List.replicate ((buildRows rows).1.maxCol.toNat + 1) "") := by
  refine ⟨?_, fun i st => rfl, by simp [buildMatrix], ?_⟩
  · rw [buildRows, buildRowsGo_snd]
    omega
  · intro r hr hnw
    have hrlt : r < (buildRows rows).1.maxRow + 1 := Nat.lt_succ_of_le hr
    simp only [buildMatrix]
    rw [List.getElem?_map, List.getElem?_range hrlt, Option.map_some']
    refine congrArg some ?_
    have hconst : ∀ c ∈ List.range ((buildRows rows).1.maxCol.toNat + 1),
        gridGet (buildRows rows).1.writes r (Int.ofNat c) = "" := by
      intro c _
      exact gridGet_of_no_write _ r hnw _
    rw [List.map_congr_left hconst, List.map_const', List.length_range]

/-- C8 (witness): in `[[A], [], [B]]` the middle empty declaration occupies
one grid row, filled with the empty string. -/
theorem C8_empty_row_witness :
    (buildMatrix [[⟨"A", none, none⟩], [], [⟨"B", none, none⟩]])[1]? =
      some (List.replicate
        ((buildRows
          [[⟨"A", none, none⟩], [], [⟨"B", none, none⟩]]).1.maxCol.toNat + 1)
        "") :=
  (C8_empty_row [[⟨"A", none, none⟩], [], [⟨"B", none, none⟩]]).2.2.2 1
    (by decide) (by decide)

/-! ### C9 — PDF minimum-rows filter -/

/-- C9 (confirmed): when the reconstructed character matrix has fewer than 3
rows the extractor discards it and returns no table; when it has 3 or more
rows the matrix is processed into a table result, returned as a singleton
unless empty. -/
theorem C9_min_rows_filter (chars : List PChar) :
    ((tableOfChars chars).length < 3 →
        extractTablesByCharacterGrid chars = []) ∧
      (3 ≤ (tableOfChars chars).length →
        extractTablesByCharacterGrid chars =
          if (processPdfTable (tableOfChars chars)).isEmptyResult then []
          else [processPdfTable (tableOfChars chars)]) := by
  match chars with
  | [] =>
    constructor
    · intro _
      rfl
    · intro h3
      have : tableOfChars ([] : List PChar) = [] := rfl
      rw [this] at h3
      simp at h3
  | c :: rest =>
    constructor
    · intro hlt
      have h2 : ¬ 2 < (tableOfChars (c :: rest)).length := by omega
      simp [extractTablesByCharacterGrid, h2]
    · intro h3
      have h2 : 2 < (tableOfChars (c :: rest)).length := by omega
      simp only [extractTablesByCharacterGrid, if_pos h2]

/-- C9 (witness): a single positioned character reconstructs to a one-row
matrix, which is discarded: the extractor returns no table. -/
theorem C9_min_rows_filter_witness :
    (tableOfChars [⟨"a", 0, 0⟩]).length < 3 ∧
      extractTablesByCharacterGrid [⟨"a", 0, 0⟩] = [] :=
  ⟨by decide, (C9_min_rows_filter [⟨"a", 0, 0⟩]).1 (by decide)⟩

end HtmlTable
